import Mathlib

/-!
Verification of the Composer lyrics-acquisition pipeline.

Shallow embedding of the Python sources:
  * `src/models/lyrics.py`        — accuracy scoring, string similarity, LRC output
  * `src/services/lrclib_client.py` — rate limiter, search with Latin-name fallback
  * `src/services/lyrics_service.py` — async search orchestration, deduplication
  * `src/services/file_service.py` — LRC writing with backup
  * `src/window.py`               — auto-download batch queue

Python strings are modelled as `String` (lists of characters); rational
numbers stand in for Python floats (all constants involved are exactly
representable); the event-driven async flows are linearised into explicit
state-passing functions, with network and filesystem effects supplied as
oracle parameters.  Character classifiers (`isAlphanum`, `isWhitespace`,
`toLower`) are the ASCII ones of the Lean core library, a faithful model of
Python's behaviour on the ASCII range.
-/

namespace Composer

/-! ### Python string primitives (modelled on lists of characters) -/

/-- Python `str.strip()` / trailing-and-leading whitespace removal. -/
def pyStrip (l : List Char) : List Char :=
  ((l.dropWhile Char.isWhitespace).reverse.dropWhile Char.isWhitespace).reverse

/-- Python `str.lower()`. -/
def pyLower (l : List Char) : List Char := l.map Char.toLower

/-- Character class of the regex `\w` (word character): alphanumeric or underscore. -/
def pyIsWordChar (c : Char) : Bool := c.isAlphanum || c == '_'

/-- Helper for `pySplit`: accumulates the current word (reversed). -/
def pySplitAux : List Char → List Char → List (List Char)
  | [], acc => if acc.isEmpty then [] else [acc.reverse]
  | c :: rest, acc =>
    if c.isWhitespace then
      if acc.isEmpty then pySplitAux rest [] else acc.reverse :: pySplitAux rest []
    else pySplitAux rest (c :: acc)

/-- Python `str.split()` with no argument: split on whitespace runs, no empty words. -/
def pySplit (l : List Char) : List (List Char) := pySplitAux l []

/-- Python `needle in hay` for strings: contiguous-substring containment. -/
def pyContains (needle : List Char) : List Char → Bool
  | [] => needle.isEmpty
  | c :: rest => needle.isPrefixOf (c :: rest) || pyContains needle rest

/-! ### String similarity (`LyricsResult._calculate_string_similarity`) -/

/-- `re.sub(r'[^\w\s]', '', s).strip()`: drop characters that are neither word
characters nor whitespace, then trim. -/
def normalizeCode (l : List Char) : List Char :=
  pyStrip (l.filter (fun c => pyIsWordChar c || c.isWhitespace))

/-- The normalization step as the spec words it: strip characters that are not
alphanumeric or whitespace (no underscore exemption), then trim. -/
def normalizeSpec (l : List Char) : List Char :=
  pyStrip (l.filter (fun c => c.isAlphanum || c.isWhitespace))

/-- Word set of a normalized string (Python `set(s.split())`). -/
def wordSet (l : List Char) : Finset (List Char) := (pySplit l).toFinset

/-- `LyricsResult._calculate_string_similarity(str1, str2)` from
`src/models/lyrics.py`.  The arguments are the already lower-cased strings the
callers pass in.  The Python locals `str1`/`str2` after the `re.sub` line are
`normalizeCode l1`/`normalizeCode l2`; `0.8` is the substring-match constant. -/
def calcStringSimilarityL (l1 l2 : List Char) : ℚ :=
  if l1.isEmpty || l2.isEmpty then 0
  else if normalizeCode l1 = normalizeCode l2 then 1
  else if pyContains (normalizeCode l1) (normalizeCode l2)
       || pyContains (normalizeCode l2) (normalizeCode l1) then 0.8
  else if wordSet (normalizeCode l1) = ∅ ∨ wordSet (normalizeCode l2) = ∅ then 0
  else ((wordSet (normalizeCode l1) ∩ wordSet (normalizeCode l2)).card : ℚ) /
       ((wordSet (normalizeCode l1) ∪ wordSet (normalizeCode l2)).card : ℚ)

/-- The similarity of the specification: `_calculate_string_similarity` applied
to the lower-cased inputs, exactly as every call site does. -/
def similarity (a b : String) : ℚ :=
  calcStringSimilarityL (pyLower a.data) (pyLower b.data)

/-- Modelled from the spec: the four-step reference string-similarity of §4.2
(case-insensitive; strip characters that are not alphanumeric or whitespace and
trim; identical → 1.0; substring either way → 0.8; otherwise Jaccard index of
the whitespace-delimited word sets, 0.0 when either set is empty).  Written
from the spec's words, to be compared against `similarity`. -/
def specSimilarity (a b : String) : ℚ :=
  if normalizeSpec (pyLower a.data) = normalizeSpec (pyLower b.data) then 1
  else if pyContains (normalizeSpec (pyLower a.data)) (normalizeSpec (pyLower b.data))
       || pyContains (normalizeSpec (pyLower b.data)) (normalizeSpec (pyLower a.data)) then 0.8
  else if wordSet (normalizeSpec (pyLower a.data)) = ∅
       ∨ wordSet (normalizeSpec (pyLower b.data)) = ∅ then 0
  else ((wordSet (normalizeSpec (pyLower a.data)) ∩ wordSet (normalizeSpec (pyLower b.data))).card : ℚ) /
       ((wordSet (normalizeSpec (pyLower a.data)) ∪ wordSet (normalizeSpec (pyLower b.data))).card : ℚ)

/-! ### Lyrics results and accuracy scoring (`LyricsResult`) -/

/-- `LyricsSource` enumeration. -/
inductive LyricsSource
  | lrclib
  | genius
  | musixmatch
  | local
deriving DecidableEq

/-- `LyricsResult`: the fields the pipeline reads. -/
structure LyricsResult where
  id : Option ℤ := none
  title : String := ""
  artist : String := ""
  album : String := ""
  duration : ℚ := 0
  plain_lyrics : String := ""
  synced_lyrics : String := ""
  source : LyricsSource := .lrclib
  accuracy_score : ℚ := 0
deriving DecidableEq

/-- `LyricsResult.has_synced_lyrics`. -/
def LyricsResult.has_synced_lyrics (r : LyricsResult) : Bool :=
  !(pyStrip r.synced_lyrics.data).isEmpty

/-- `LyricsResult.has_lyrics`. -/
def LyricsResult.has_lyrics (r : LyricsResult) : Bool :=
  !(pyStrip r.plain_lyrics.data).isEmpty || r.has_synced_lyrics

/-- `LyricsResult.calculate_accuracy_score`: 0.4·title + 0.4·artist + album
term + duration term. -/
def LyricsResult.calculate_accuracy_score (r : LyricsResult)
    (target_title target_artist : String)
    (target_album : String := "") (target_duration : ℚ := 0) : ℚ :=
  let title_similarity :=
    calcStringSimilarityL (pyLower r.title.data) (pyLower target_title.data)
  let artist_similarity :=
    calcStringSimilarityL (pyLower r.artist.data) (pyLower target_artist.data)
  let album_term :=
    if target_album ≠ "" then
      calcStringSimilarityL (pyLower r.album.data) (pyLower target_album.data) * 0.1
    else 0.1
  let duration_term :=
    if 0 < target_duration ∧ 0 < r.duration then
      if |r.duration - target_duration| ≤ 5 then (0.1 : ℚ)
      else if |r.duration - target_duration| ≤ 30 then 0.05
      else 0
    else 0.05
  title_similarity * 0.4 + artist_similarity * 0.4 + album_term + duration_term

/-! ### LRC output with romanization (`LyricsResult.to_lrc_format`) -/

/-- The `try/except` around `romanization_service.romanize_lyrics(...)`: a
raised exception is caught and logged, and `lyrics_content` keeps its original
value.  `none` models `romanization_service=None`. -/
def applyRomanization (svc : Option (String → Except Unit String))
    (content : String) : String :=
  match svc with
  | none => content
  | some f =>
    match f content with
    | .ok s => s
    | .error _ => content

/-- `LyricsResult.to_lrc_format`: synced lyrics preferred over plain; empty
string when there are no lyrics at all (returned before romanization); the
romanization transform is applied under the caught-exception discipline. -/
def LyricsResult.to_lrc_format (r : LyricsResult)
    (romanization_service : Option (String → Except Unit String)) : String :=
  if r.has_synced_lyrics then applyRomanization romanization_service r.synced_lyrics
  else if r.has_lyrics then applyRomanization romanization_service r.plain_lyrics
  else ""

/-! ### File service (`FileService.backup_existing_file` / `write_lrc_file`) -/

/-- A model filesystem: stored files plus fault flags for the two fallible
operations inside `write_lrc_file` — `shutil.copy2` (backup copying) and
`open/write` (the actual write, whose failure is caught and returned as
`False`). -/
structure FS where
  files : List (String × String)
  copyFails : Bool
  writeFails : Bool
deriving DecidableEq

/-- `os.path.exists`. -/
def FS.hasFile (fs : FS) (p : String) : Bool := fs.files.any (fun e => e.1 == p)

/-- Read a file's content. -/
def FS.read (fs : FS) (p : String) : Option String :=
  (fs.files.find? (fun e => e.1 == p)).map (fun e => e.2)

/-- Store (create or overwrite) a file. -/
def FS.setFile (fs : FS) (p c : String) : FS :=
  { fs with files := (p, c) :: fs.files.filter (fun e => !(e.1 == p)) }

/-- The `while os.path.exists(backup_path)` loop of `backup_existing_file`.
The Python loop terminates because the filesystem is finite and the candidate
names are pairwise distinct; `fs.files.length + 1` steps always suffice, so the
fuel never runs out on reachable inputs. -/
def findBackupPathAux (fs : FS) (p : String) : ℕ → ℕ → String → String
  | _, 0, cur => cur
  | counter, fuel + 1, cur =>
    if fs.hasFile cur then
      findBackupPathAux fs p (counter + 1) fuel (p ++ ".backup." ++ toString counter)
    else cur

/-- The backup-name search of `backup_existing_file`: `p.backup`, then
`p.backup.1`, `p.backup.2`, … until a free name is found. -/
def findBackupPath (fs : FS) (p : String) : String :=
  findBackupPathAux fs p 1 (fs.files.length + 1) (p ++ ".backup")

/-- `FileService.backup_existing_file`: `None` when the file does not exist;
otherwise copy it to the first free backup name — and when `shutil.copy2`
raises, catch, log, and return `None` with the filesystem unchanged. -/
def FS.backup_existing_file (fs : FS) (p : String) : Option String × FS :=
  if fs.hasFile p = false then (none, fs)
  else if fs.copyFails then (none, fs)
  else
    let bp := findBackupPath fs p
    (some bp, fs.setFile bp ((fs.read p).getD ""))

/-- `FileService.write_lrc_file`: backup when requested and the target exists
(the backup result is ignored — `backup_existing_file` never raises), then
write; a write failure is caught and reported as `False`. -/
def FS.write_lrc_file (fs : FS) (p content : String) (create_backup : Bool) :
    Bool × FS :=
  let fs1 := if create_backup ∧ fs.hasFile p = true then (fs.backup_existing_file p).2 else fs
  if fs.writeFails then (false, fs1)
  else (true, fs1.setFile p content)

/-! ### LRCLib search with Latin-name fallback (`LRCLibClient.search_lyrics`) -/

/-- `LRCLibClient._has_non_latin_chars`: any character beyond the Latin-1
supplement (`ord(char) > 255`). -/
def hasNonLatinChars (s : String) : Bool := s.data.any (fun c => 255 < c.toNat)

/-- Matching tail for the regex `\(.+\)` after an opening parenthesis has been
consumed: a closing `)` is reachable with at least one interleaving character,
all of them non-newline (`.` does not match a newline). -/
def parenClose : List Char → Bool → Bool
  | [], _ => false
  | c :: rest, seenOne => (seenOne && c == ')') || (!(c == '\n') && parenClose rest true)

/-- Scan for a start position where `\(.+\)` matches. -/
def hasParenAux : List Char → Bool
  | [] => false
  | c :: rest => (c == '(' && parenClose rest false) || hasParenAux rest

/-- `LRCLibClient._has_parentheses_content`: `re.search(r'\(.+\)', text)`. -/
def hasParenthesesContent (s : String) : Bool := hasParenAux s.data

/-- Lazy group of `\((.*?)\)` starting right after a `(`: the characters up to
the nearest `)` reachable without crossing a newline. -/
def lazyGroup : List Char → Option (List Char)
  | [] => none
  | c :: rest =>
    if c == ')' then some []
    else if c == '\n' then none
    else (lazyGroup rest).map (fun g => c :: g)

/-- Leftmost match of `\((.*?)\)`: the first `(` from which a `)` is reachable
yields the (lazy) group; positions without a reachable `)` are skipped, as
`re.search` advances its start position. -/
def firstParenGroup : List Char → Option (List Char)
  | [] => none
  | c :: rest =>
    if c == '(' then
      match lazyGroup rest with
      | some g => some g
      | none => firstParenGroup rest
    else firstParenGroup rest

/-- `LRCLibClient._extract_latin_name`: the trimmed content of the first
parenthesized group, or the original name when the regex does not match. -/
def extractLatinName (name : String) : String :=
  match firstParenGroup name.data with
  | some g => String.mk (pyStrip g)
  | none => name

/-- The substitution applied to `title` and `artist` in the fallback branch:
`_extract_latin_name(x)` when x has non-Latin characters and parenthesized
content, else x unchanged. -/
def latinSubst (s : String) : String :=
  if hasNonLatinChars s && hasParenthesesContent s then extractLatinName s else s

/-- The substitution applied to `album`: additionally requires the album to be
non-empty (Python truthiness of `album`). -/
def latinSubstAlbum (s : String) : String :=
  if !(s == "") && hasNonLatinChars s && hasParenthesesContent s then extractLatinName s
  else s

/-- One `GET /search` request: the query parameters `search_lyrics` sends. -/
structure SearchQuery where
  title : String
  artist : String
  album : String
  duration : ℤ
deriving DecidableEq

/-- `LRCLibClient.search_lyrics`, instrumented with the list of queries it
issues.  The network (request, parsing, validity filtering, scoring and
sorting of `_parse_search_results`) is the oracle `net`; the function returns
the trace of issued queries together with the final result list.  The
recursive call passes `try_latin=False`, which bounds the recursion at one
retry. -/
def search_lyrics_trace (net : SearchQuery → List LyricsResult)
    (title artist album : String) (duration : ℤ) (tryLatin : Bool) :
    List SearchQuery × List LyricsResult :=
  if h : ((net ⟨title, artist, album, duration⟩).isEmpty && tryLatin) = true then
    if hq : ((hasNonLatinChars title && hasParenthesesContent title)
        || (hasNonLatinChars artist && hasParenthesesContent artist)) = true then
      let inner := search_lyrics_trace net (latinSubst title) (latinSubst artist)
        (latinSubstAlbum album) duration false
      (⟨title, artist, album, duration⟩ :: inner.1, inner.2)
    else ([⟨title, artist, album, duration⟩], net ⟨title, artist, album, duration⟩)
  else ([⟨title, artist, album, duration⟩], net ⟨title, artist, album, duration⟩)
termination_by (if tryLatin then 1 else 0)
decreasing_by
  have : tryLatin = true := (Bool.and_eq_true _ _).mp h |>.2
  simp [this]

/-! ### Search-result deduplication (`LyricsService`) -/

/-- The key of `_remove_duplicates`:
`(result.title.lower().strip(), result.artist.lower().strip())`. -/
def dedupKey (r : LyricsResult) : List Char × List Char :=
  (pyStrip (pyLower r.title.data), pyStrip (pyLower r.artist.data))

/-- The `seen`-set loop of `LyricsService._remove_duplicates`. -/
def removeDuplicatesAux : List LyricsResult → List (List Char × List Char) → List LyricsResult
  | [], _ => []
  | r :: rest, seen =>
    if dedupKey r ∈ seen then removeDuplicatesAux rest seen
    else r :: removeDuplicatesAux rest (dedupKey r :: seen)

/-- `LyricsService._remove_duplicates`. -/
def remove_duplicates (results : List LyricsResult) : List LyricsResult :=
  removeDuplicatesAux results []

/-- The comparison of `unique_results.sort(key=..., reverse=True)`: a stable
sort that puts higher accuracy scores first. -/
def scoreDescBool (a b : LyricsResult) : Bool := decide (b.accuracy_score ≤ a.accuracy_score)

/-- The merge-dedup-sort pipeline of `_search_lyrics_thread` applied to the
merged provider results. -/
def searchThreadResults (results : List LyricsResult) : List LyricsResult :=
  (remove_duplicates results).mergeSort scoreDescBool

/-! ### Async search bookkeeping (`LyricsService.search_lyrics_async`) -/

/-- Python exceptions relevant to the orchestration layer. -/
inductive PyExc
  | attributeError
deriving DecidableEq

/-- Modelled from the Python standard library: `threading.Thread` defines no
`cancel()` method, so the attribute access `thread.cancel` raises
`AttributeError`. -/
def threadCancel : Except PyExc Unit := .error .attributeError

/-- `LyricsService.search_lyrics_async`, its `_current_searches` bookkeeping:
the search key is `f"{artist}_{title}"` (not lower-cased); when a search with
the same key is in flight the code evaluates
`self._current_searches[search_key].cancel()` on the stored `threading.Thread`;
on the success path the new thread is stored under the key. -/
def search_lyrics_async (currentSearches : List String) (title artist : String) :
    Except PyExc (List String) :=
  let searchKey := artist ++ "_" ++ title
  if searchKey ∈ currentSearches then
    match threadCancel with
    | .error e => .error e
    | .ok _ => .ok (searchKey :: currentSearches.filter (fun k => !(k == searchKey)))
  else .ok (searchKey :: currentSearches)

/-! ### Auto-download batch queue (`ComposerWindow`) -/

/-- A track record as produced by the scanner (`music_file` dict). -/
structure Track where
  path : String
  title : String
  artist : String
  album : String
  duration : ℤ
deriving DecidableEq

/-- The auto-download bookkeeping of `ComposerWindow`: the counters, the
`set_auto_download_state(in_progress, completed, total)` calls observed by the
library view (in order), the download attempts made
(`download_lyrics_async(path, best_result)` calls), and the rows refreshed on
success. -/
structure ADState where
  completed : ℕ
  total : ℕ
  events : List (Bool × ℕ × ℕ)
  downloads : List (Track × LyricsResult)
  succeeded : List String
deriving DecidableEq

/-- The event-driven loop `_process_next_auto_download` →
`_handle_auto_download_search_results` → (`_on_auto_download_completed` |
`_on_auto_download_error`) → `_process_next_auto_download`, linearised (the
callbacks run one at a time on the main context).  `search` is the result list
delivered to the search callback; `dl` tells whether the download of a track
succeeds (`download-completed`) or fails (`download-error`) — both handlers
count the track and advance. -/
def processQueue (search : Track → List LyricsResult) (dl : Track → Bool) :
    List Track → ADState → ADState
  | [], st => { st with events := st.events ++ [(false, st.completed, st.total)] }
  | t :: rest, st =>
    match search t with
    | [] =>
      processQueue search dl rest
        { st with completed := st.completed + 1,
                  events := st.events ++ [(true, st.completed + 1, st.total)] }
    | best :: _ =>
      if dl t then
        processQueue search dl rest
          { st with completed := st.completed + 1,
                    events := st.events ++ [(true, st.completed + 1, st.total)],
                    downloads := st.downloads ++ [(t, best)],
                    succeeded := st.succeeded ++ [t.path] }
      else
        processQueue search dl rest
          { st with completed := st.completed + 1,
                    events := st.events ++ [(true, st.completed + 1, st.total)],
                    downloads := st.downloads ++ [(t, best)] }

/-- `_on_scan_completed` + `_start_auto_download`: with a nonempty queue, set
`total = len(queue)`, `completed = 0`, emit the initial progress state and
drain the queue; an empty queue leaves the (reset) counters untouched and
processes nothing. -/
def startAutoDownload (search : Track → List LyricsResult) (dl : Track → Bool)
    (tracks : List Track) : ADState :=
  if tracks.isEmpty then ⟨0, 0, [], [], []⟩
  else processQueue search dl tracks ⟨0, tracks.length, [(true, 0, tracks.length)], [], []⟩

/-- The per-track progress events: the i-th processed track fires
`(True, completed₀ + i + 1, total)`. -/
def progressEvents (c total n : ℕ) : List (Bool × ℕ × ℕ) :=
  (List.range n).map (fun i => (true, c + i + 1, total))

/-! ### Rate limiter (`RateLimiter.wait_if_needed`) -/

/-- The eviction step: drop recorded timestamps `t` with `now - t ≥ W`
(`[req for req in self.requests if now - req < self.time_window]`). -/
def evict (W now : ℚ) (reqs : List ℚ) : List ℚ :=
  reqs.filter (fun t => decide (now - t < W))

/-- Python `min` over a nonempty list (0 as an irrelevant default for `[]`,
which `wait_if_needed` never reaches). -/
def listMin : List ℚ → ℚ
  | [] => 0
  | x :: xs => xs.foldl min x

/-- A rate-limiter state: the recorded timestamp list (`self.requests`), the
full grant history (ghost, for specification), and the current time.  Calls
are serialised by `self.lock`. -/
structure RL where
  reqs : List ℚ
  grants : List ℚ
  tnow : ℚ

/-- One `wait_if_needed()` call, entered `delay` seconds after the previous
call finished: evict; if at least `N` timestamps remain, sleep
`W - (now - oldest)` (modelled as advancing the clock by exactly that amount),
re-evict; then record a new timestamp. -/
def rlStep (N : ℕ) (W : ℚ) (st : RL) (delay : ℚ) : RL :=
  let now := st.tnow + delay
  let reqs1 := evict W now st.reqs
  if N ≤ reqs1.length then
    let oldest := listMin reqs1
    let wait := W - (now - oldest)
    if 0 < wait then
      let now2 := now + wait
      let reqs2 := evict W now2 reqs1
      ⟨reqs2 ++ [now2], st.grants ++ [now2], now2⟩
    else ⟨reqs1 ++ [now], st.grants ++ [now], now⟩
  else ⟨reqs1 ++ [now], st.grants ++ [now], now⟩

/-- A serialised sequence of `wait_if_needed()` calls, the i-th one arriving
`delays[i]` seconds after the previous one returned. -/
def rlRun (N : ℕ) (W : ℚ) (delays : List ℚ) : RL :=
  delays.foldl (rlStep N W) ⟨[], [], 0⟩

/-- Membership of a grant time in the rolling window `(s, s + W]`. -/
def inWin (W s g : ℚ) : Bool := decide (s < g ∧ g ≤ s + W)

/-- The rate-limiter invariant: every grant lies in the past, the recorded
list is exactly the unevicted grant history, it never exceeds `N` entries, and
no rolling window of length `W` contains more than `N` grants. -/
def RLInv (N : ℕ) (W : ℚ) (st : RL) : Prop :=
  (∀ t ∈ st.grants, t ≤ st.tnow) ∧
  st.reqs = evict W st.tnow st.grants ∧
  st.reqs.length ≤ N ∧
  ∀ s : ℚ, (st.grants.filter (inWin W s)).length ≤ N

end Composer

open Composer

/-! ### Helper lemmas about the similarity function -/

theorem normalizeCode_eq_normalizeSpec {l : List Char} (h : '_' ∉ l) :
    normalizeCode l = normalizeSpec l := by
  unfold normalizeCode normalizeSpec
  congr 1
  refine List.filter_congr ?_
  intro c hc
  have hne : c ≠ '_' := by rintro rfl; exact h hc
  have hfalse : (c == '_') = false := beq_eq_false_iff_ne.mpr hne
  simp [pyIsWordChar, hfalse]

theorem calcStringSimilarityL_comm (l1 l2 : List Char) :
    calcStringSimilarityL l1 l2 = calcStringSimilarityL l2 l1 := by
  unfold calcStringSimilarityL
  by_cases h0 : (l1.isEmpty || l2.isEmpty) = true
  · have h0' : (l2.isEmpty || l1.isEmpty) = true := by rw [Bool.or_comm]; exact h0
    rw [if_pos h0, if_pos h0']
  · have h0' : ¬(l2.isEmpty || l1.isEmpty) = true := by rw [Bool.or_comm]; exact h0
    rw [if_neg h0, if_neg h0']
    by_cases h1 : normalizeCode l1 = normalizeCode l2
    · have h1' : normalizeCode l2 = normalizeCode l1 := h1.symm
      rw [if_pos h1, if_pos h1']
    · have h1' : ¬normalizeCode l2 = normalizeCode l1 := Ne.symm h1
      rw [if_neg h1, if_neg h1']
      by_cases h2 : (pyContains (normalizeCode l1) (normalizeCode l2)
          || pyContains (normalizeCode l2) (normalizeCode l1)) = true
      · have h2' : (pyContains (normalizeCode l2) (normalizeCode l1)
            || pyContains (normalizeCode l1) (normalizeCode l2)) = true := by
          rw [Bool.or_comm]; exact h2
        rw [if_pos h2, if_pos h2']
      · have h2' : ¬(pyContains (normalizeCode l2) (normalizeCode l1)
            || pyContains (normalizeCode l1) (normalizeCode l2)) = true := by
          rw [Bool.or_comm]; exact h2
        rw [if_neg h2, if_neg h2']
        by_cases h3 : wordSet (normalizeCode l1) = ∅ ∨ wordSet (normalizeCode l2) = ∅
        · have h3' : wordSet (normalizeCode l2) = ∅ ∨ wordSet (normalizeCode l1) = ∅ :=
            h3.symm
          rw [if_pos h3, if_pos h3']
        · have h3' : ¬(wordSet (normalizeCode l2) = ∅ ∨ wordSet (normalizeCode l1) = ∅) :=
            fun hh => h3 hh.symm
          rw [if_neg h3, if_neg h3']
          rw [Finset.inter_comm, Finset.union_comm]

theorem calcStringSimilarityL_nonneg (l1 l2 : List Char) :
    0 ≤ calcStringSimilarityL l1 l2 := by
  unfold calcStringSimilarityL
  split_ifs
  · norm_num
  · norm_num
  · norm_num
  · norm_num
  · positivity

theorem calcStringSimilarityL_le_one (l1 l2 : List Char) :
    calcStringSimilarityL l1 l2 ≤ 1 := by
  unfold calcStringSimilarityL
  split_ifs with h0 h1 h2 h3
  · norm_num
  · norm_num
  · norm_num
  · norm_num
  · have hne : wordSet (normalizeCode l1) ≠ ∅ := fun h => h3 (Or.inl h)
    have hpos : (wordSet (normalizeCode l1) ∪ wordSet (normalizeCode l2)).Nonempty :=
      Finset.Nonempty.mono Finset.subset_union_left (Finset.nonempty_iff_ne_empty.mpr hne)
    rw [div_le_one (by exact_mod_cast Finset.card_pos.mpr hpos)]
    exact_mod_cast Finset.card_le_card
      (Finset.Subset.trans Finset.inter_subset_left Finset.subset_union_left)

theorem pyLower_ne_nil {s : String} (h : s ≠ "") : pyLower s.data ≠ [] := by
  intro hl
  apply h
  unfold pyLower at hl
  rw [List.map_eq_nil_iff] at hl
  exact String.ext hl

theorem calcStringSimilarityL_self {l : List Char} (h : l ≠ []) :
    calcStringSimilarityL l l = 1 := by
  unfold calcStringSimilarityL
  rw [if_neg (by simp [h]), if_pos rfl]

/-! ### Claims C2 and C8: the string-similarity algorithm -/

/-- Claim C2, counterexample: the code returns 0.0 whenever either raw input
string is empty (the `if not str1 or not str2` guard), but the spec's four-step
reference definition normalizes `""` to `""` and declares the normalized
strings identical, giving 1.0.  At `A = B = ""` the two disagree. -/
theorem C2_counterexample : similarity "" "" = 0 ∧ specSimilarity "" "" = 1 := by
  constructor
  · decide
  · unfold specSimilarity
    rw [if_pos rfl]

/-- Claim C2 (amended): for strings whose lower-cased forms are nonempty and
contain no underscore, the scorer's similarity equals the four-step reference
definition of the spec; and similarity("Let It Be", "Let It Be (Remastered)")
is 0.8 (the substring case).  (The code departs from the reference on empty
inputs, which return 0.0 upfront, and on underscores, which the code's `\w`
class keeps but the spec's alphanumeric class strips.) -/
theorem C2_similarity_matches_spec (a b : String)
    (ha : pyLower a.data ≠ []) (hb : pyLower b.data ≠ [])
    (hua : '_' ∉ pyLower a.data) (hub : '_' ∉ pyLower b.data) :
    similarity a b = specSimilarity a b ∧
    similarity "Let It Be" "Let It Be (Remastered)" = 0.8 := by
  constructor
  · unfold similarity calcStringSimilarityL specSimilarity
    rw [normalizeCode_eq_normalizeSpec hua, normalizeCode_eq_normalizeSpec hub,
      if_neg (by simp [ha, hb])]
  · unfold similarity calcStringSimilarityL
    rw [if_neg (by decide), if_neg (by decide), if_pos (by decide)]

/-- Witness for C2: the amended equation instantiated at ("Let It Be",
"Yesterday"), discharging the nonemptiness and no-underscore hypotheses. -/
theorem C2_witness :
    similarity "Let It Be" "Yesterday" = specSimilarity "Let It Be" "Yesterday" ∧
    similarity "Let It Be" "Let It Be (Remastered)" = 0.8 :=
  C2_similarity_matches_spec "Let It Be" "Yesterday"
    (by decide) (by decide) (by decide) (by decide)

/-- Claim C8: the string similarity function is symmetric in its two
arguments. -/
theorem C8_similarity_symmetric (a b : String) : similarity a b = similarity b a :=
  calcStringSimilarityL_comm (pyLower a.data) (pyLower b.data)

/-! ### Claim C3: the accuracy score -/

/-- Claim C3: the accuracy score is title×0.4 + artist×0.4 + album term (full
0.1 when the target album is empty, else album similarity × 0.1) + duration
term (0.1 when both durations known and |diff| ≤ 5, 0.05 when 5 < |diff| ≤ 30,
0 beyond 30, 0.05 when either duration unknown); it lies in [0,1]; and a
candidate matching title and artist exactly, with unknown target album, both
durations known and within 3 seconds, scores exactly 1.0. -/
theorem C3_accuracy_score (r : LyricsResult) (tt ta tal : String) (td : ℚ) :
    (0 ≤ r.calculate_accuracy_score tt ta tal td ∧
      r.calculate_accuracy_score tt ta tal td ≤ 1) ∧
    (r.title = tt → r.artist = ta → tt ≠ "" → ta ≠ "" → tal = "" →
      0 < td → 0 < r.duration → |r.duration - td| ≤ 3 →
      r.calculate_accuracy_score tt ta tal td = 1) := by
  have ht0 := calcStringSimilarityL_nonneg (pyLower r.title.data) (pyLower tt.data)
  have ht1 := calcStringSimilarityL_le_one (pyLower r.title.data) (pyLower tt.data)
  have ha0 := calcStringSimilarityL_nonneg (pyLower r.artist.data) (pyLower ta.data)
  have ha1 := calcStringSimilarityL_le_one (pyLower r.artist.data) (pyLower ta.data)
  have hb0 := calcStringSimilarityL_nonneg (pyLower r.album.data) (pyLower tal.data)
  have hb1 := calcStringSimilarityL_le_one (pyLower r.album.data) (pyLower tal.data)
  constructor
  · simp only [LyricsResult.calculate_accuracy_score]
    constructor <;> split_ifs <;> linarith
  · intro h1 h2 h3 h4 h5 h6 h7 h8
    simp only [LyricsResult.calculate_accuracy_score]
    rw [h1, h2, h5]
    rw [calcStringSimilarityL_self (pyLower_ne_nil h3),
      calcStringSimilarityL_self (pyLower_ne_nil h4),
      if_neg (by simp), if_pos ⟨h6, h7⟩, if_pos (le_trans h8 (by norm_num))]
    norm_num

/-- Witness for C3: a candidate matching title and artist exactly, empty target
album, durations 100 and 101 seconds, scores exactly 1. -/
theorem C3_witness :
    LyricsResult.calculate_accuracy_score
      { title := "Song", artist := "Band", duration := 100 } "Song" "Band" "" 101 = 1 :=
  (C3_accuracy_score { title := "Song", artist := "Band", duration := 100 }
      "Song" "Band" "" 101).2
    rfl rfl (by decide) (by decide) rfl (by norm_num) (by norm_num) (by norm_num)

/-! ### Claim C1: per-identity supersession of in-flight searches -/

/-- Claim C1 describes the intended supersession, but the code cannot deliver
it: the first call registers the key "Artist_Song"; a second
`search_lyrics_async` with the same `(artist, title)` while the first is in
flight calls `cancel()` on the stored `threading.Thread` — a method that does
not exist — raising `AttributeError` instead of superseding the earlier
search.  (Nothing suppresses the earlier thread's completion callback either,
and the key is not lower-cased.) -/
theorem C1_duplicate_search_raises :
    search_lyrics_async [] "Song" "Artist" = .ok ["Artist_Song"] ∧
    search_lyrics_async ["Artist_Song"] "Song" "Artist" = .error .attributeError :=
  ⟨rfl, rfl⟩

/-! ### Claim C9: backup failure never aborts the write -/

theorem FS.read_setFile (fs : FS) (p c : String) : (fs.setFile p c).read p = some c := by
  simp [FS.read, FS.setFile]

/-- Claim C9: for an existing target file, `write_lrc_file` with
`create_backup=True` still performs the overwrite and returns `True` even when
the backup copy fails (`backup_existing_file` catches the error and returns
`None`); only a failure of the write itself yields `False`. -/
theorem C9_backup_failure_ignored (fs : FS) (p c : String)
    (hex : fs.hasFile p = true) (hcopy : fs.copyFails = true)
    (hw : fs.writeFails = false) :
    (fs.write_lrc_file p c true).1 = true ∧
    (fs.write_lrc_file p c true).2.read p = some c := by
  unfold FS.write_lrc_file FS.backup_existing_file
  simp [hex, hcopy, hw, FS.read_setFile]

/-- Witness for C9: a one-file filesystem whose copies fail but whose writes
succeed. -/
theorem C9_witness :
    ((FS.mk [("a.lrc", "old")] true false).write_lrc_file "a.lrc" "new" true).1 = true ∧
    ((FS.mk [("a.lrc", "old")] true false).write_lrc_file "a.lrc" "new" true).2.read "a.lrc"
      = some "new" :=
  C9_backup_failure_ignored (FS.mk [("a.lrc", "old")] true false) "a.lrc" "new"
    (by decide) rfl rfl

/-! ### Claim C10: romanization failure degrades to un-romanized output -/

/-- Claim C10: for a result that has lyrics, `to_lrc_format` with a
romanization service whose transform raises returns the original lyrics text
(synced preferred over plain) unchanged. -/
theorem C10_romanization_failure (r : LyricsResult) (f : String → Except Unit String)
    (hf : ∀ s, f s = .error ()) (h : r.has_lyrics = true) :
    r.to_lrc_format (some f) =
      (if r.has_synced_lyrics then r.synced_lyrics else r.plain_lyrics) := by
  by_cases hs : r.has_synced_lyrics = true
  · simp [LyricsResult.to_lrc_format, applyRomanization, hs, hf]
  · simp [LyricsResult.to_lrc_format, applyRomanization, hs, h, hf]

/-- Witness for C10: a synced-lyrics result with an always-raising romanizer
comes back unchanged. -/
theorem C10_witness :
    LyricsResult.to_lrc_format { synced_lyrics := "[00:01.00] la" }
      (some fun _ => Except.error ()) = "[00:01.00] la" :=
  (C10_romanization_failure { synced_lyrics := "[00:01.00] la" } _
    (fun _ => rfl) (by decide)).trans (by decide)

/-! ### Claim C4: the Latin-name fallback retry -/

/-- Claim C4, counterexample: the claim lets a qualifying `album` alone trigger
the retry ("at least one of title, artist (and album, if present)"), but the
code's trigger only inspects `title` and `artist`
(`should_try_latin = (title_nl and title_par) or (artist_nl and artist_par)`).
Here the first query is empty and the album "愛 (Love)" qualifies (non-Latin-1
character plus parenthesized group), yet exactly one query is issued — no
retry happens. -/
theorem C4_counterexample :
    (hasNonLatinChars "愛 (Love)" && hasParenthesesContent "愛 (Love)") = true ∧
    (search_lyrics_trace (fun _ => ([] : List LyricsResult)) "Title" "Artist" "愛 (Love)" 0
        true).1
      = [⟨"Title", "Artist", "愛 (Love)", 0⟩] := by
  constructor
  · decide
  · rw [search_lyrics_trace, dif_pos (by decide)]
    decide

/-- Claim C4 (amended): when the first query of
`search(title, artist, album, duration, allowFallback=true)` returns empty and
**title or artist** qualifies (non-Latin-1 character and parenthesized group),
the search is re-issued exactly once with each qualifying field — album
included, when present and qualifying — replaced by the trimmed content of its
first parenthesized group, with `allowFallback=false`, and no further retry
occurs even if the retry is also empty; when neither title nor artist
qualifies, no retry occurs (album alone cannot trigger one). -/
theorem C4_latin_fallback (net : SearchQuery → List LyricsResult)
    (t a al : String) (d : ℤ) :
    (net ⟨t, a, al, d⟩ = [] →
      ((hasNonLatinChars t && hasParenthesesContent t)
        || (hasNonLatinChars a && hasParenthesesContent a)) = true →
      search_lyrics_trace net t a al d true =
        (⟨t, a, al, d⟩ :: [⟨latinSubst t, latinSubst a, latinSubstAlbum al, d⟩],
         net ⟨latinSubst t, latinSubst a, latinSubstAlbum al, d⟩)) ∧
    (((hasNonLatinChars t && hasParenthesesContent t)
        || (hasNonLatinChars a && hasParenthesesContent a)) = false →
      search_lyrics_trace net t a al d true =
        ([⟨t, a, al, d⟩], net ⟨t, a, al, d⟩)) := by
  constructor
  · intro hempty hq
    rw [search_lyrics_trace, dif_pos (by simp [hempty]), dif_pos hq]
    rw [search_lyrics_trace]
    simp
  · intro hqf
    rw [search_lyrics_trace]
    by_cases h : ((net ⟨t, a, al, d⟩).isEmpty && true) = true
    · rw [dif_pos h, dif_neg (by simp [hqf])]
    · rw [dif_neg h]

/-- Witness for C4: `search("愛 (Love)", "某 (Artist)")` with an
always-empty network issues exactly the original query followed by one retry
with ("Love", "Artist") and returns the (still empty) retry result. -/
theorem C4_witness :
    search_lyrics_trace (fun _ => ([] : List LyricsResult)) "愛 (Love)" "某 (Artist)" "" 0 true
      = ([⟨"愛 (Love)", "某 (Artist)", "", 0⟩, ⟨"Love", "Artist", "", 0⟩], []) :=
  ((C4_latin_fallback (fun _ => ([] : List LyricsResult)) "愛 (Love)" "某 (Artist)" "" 0).1
    rfl (by decide)).trans (by decide)

/-! ### Claim C5: deduplication and final ordering -/

theorem removeDuplicatesAux_sublist (l : List LyricsResult)
    (seen : List (List Char × List Char)) : List.Sublist (removeDuplicatesAux l seen) l := by
  induction l generalizing seen with
  | nil => simp [removeDuplicatesAux]
  | cons x rest ih =>
    by_cases h : dedupKey x ∈ seen
    · rw [removeDuplicatesAux, if_pos h]
      exact (ih seen).cons x
    · rw [removeDuplicatesAux, if_neg h]
      exact (ih _).cons₂ x

theorem removeDuplicatesAux_first_occ (l : List LyricsResult)
    (seen : List (List Char × List Char)) :
    ∀ r ∈ removeDuplicatesAux l seen, dedupKey r ∉ seen ∧
      (l.filter (fun x => decide (dedupKey x = dedupKey r))).head? = some r := by
  induction l generalizing seen with
  | nil => simp [removeDuplicatesAux]
  | cons x rest ih =>
    intro r hr
    by_cases h : dedupKey x ∈ seen
    · rw [removeDuplicatesAux, if_pos h] at hr
      obtain ⟨hnot, hhead⟩ := ih seen r hr
      have hne : dedupKey x ≠ dedupKey r := fun he => hnot (he ▸ h)
      refine ⟨hnot, ?_⟩
      rw [List.filter_cons_of_neg (by simp [hne])]
      exact hhead
    · rw [removeDuplicatesAux, if_neg h] at hr
      rcases List.mem_cons.mp hr with rfl | hr'
      · refine ⟨h, ?_⟩
        rw [List.filter_cons_of_pos (by simp)]
        rfl
      · obtain ⟨hnot, hhead⟩ := ih _ r hr'
        have hne : dedupKey x ≠ dedupKey r := fun he => hnot (by
          rw [← he]; exact List.mem_cons_self _ _)
        have hnotseen : dedupKey r ∉ seen := fun hs => hnot (List.mem_cons_of_mem _ hs)
        refine ⟨hnotseen, ?_⟩
        rw [List.filter_cons_of_neg (by simp [hne])]
        exact hhead

theorem removeDuplicatesAux_nodup (l : List LyricsResult)
    (seen : List (List Char × List Char)) :
    ((removeDuplicatesAux l seen).map dedupKey).Nodup ∧
      ∀ k ∈ (removeDuplicatesAux l seen).map dedupKey, k ∉ seen := by
  induction l generalizing seen with
  | nil => simp [removeDuplicatesAux]
  | cons x rest ih =>
    by_cases h : dedupKey x ∈ seen
    · rw [removeDuplicatesAux, if_pos h]
      exact ih seen
    · rw [removeDuplicatesAux, if_neg h]
      obtain ⟨hnd, hdisj⟩ := ih (dedupKey x :: seen)
      refine ⟨?_, ?_⟩
      · rw [List.map_cons, List.nodup_cons]
        exact ⟨fun hmem => (hdisj _ hmem) (List.mem_cons_self _ _), hnd⟩
      · intro k hk
        rw [List.map_cons, List.mem_cons] at hk
        rcases hk with rfl | hk'
        · exact h
        · exact fun hs => (hdisj _ hk') (List.mem_cons_of_mem _ hs)

theorem removeDuplicatesAux_covers (l : List LyricsResult)
    (seen : List (List Char × List Char)) :
    ∀ r ∈ l, dedupKey r ∈ seen ∨
      ∃ r' ∈ removeDuplicatesAux l seen, dedupKey r' = dedupKey r := by
  induction l generalizing seen with
  | nil => simp
  | cons x rest ih =>
    intro r hr
    by_cases h : dedupKey x ∈ seen
    · rw [removeDuplicatesAux, if_pos h]
      rcases List.mem_cons.mp hr with rfl | hr'
      · exact Or.inl h
      · exact ih seen r hr'
    · rw [removeDuplicatesAux, if_neg h]
      rcases List.mem_cons.mp hr with rfl | hr'
      · exact Or.inr ⟨_, List.mem_cons_self _ _, rfl⟩
      · rcases ih (dedupKey x :: seen) r hr' with hseen | ⟨r', hr'', he⟩
        · rcases List.mem_cons.mp hseen with he | hs
          · exact Or.inr ⟨x, List.mem_cons_self _ _, he.symm⟩
          · exact Or.inl hs
        · exact Or.inr ⟨r', List.mem_cons_of_mem _ hr'', he⟩

/-- Claim C5: deduplication removes every candidate whose lower-cased, trimmed
`(title, artist)` pair repeats, keeping the first occurrence (the deduplicated
list is a sublist of the input with pairwise-distinct keys, every input key
still represented, each survivor being the first input element with its key);
the final list is re-sorted descending by accuracy score; and of exactly two
candidates with identical keys the first survives alone. -/
theorem C5_deduplication (results : List LyricsResult) :
    List.Sorted (fun a b : LyricsResult => b.accuracy_score ≤ a.accuracy_score)
      (searchThreadResults results) ∧
    List.Sublist (remove_duplicates results) results ∧
    ((remove_duplicates results).map dedupKey).Nodup ∧
    (∀ r ∈ results, ∃ r' ∈ remove_duplicates results, dedupKey r' = dedupKey r) ∧
    (∀ r ∈ remove_duplicates results,
      (results.filter (fun x => decide (dedupKey x = dedupKey r))).head? = some r) ∧
    (∀ c1 c2 : LyricsResult, dedupKey c1 = dedupKey c2 →
      searchThreadResults [c1, c2] = [c1]) := by
  have htrans : ∀ a b c : LyricsResult,
      scoreDescBool a b → scoreDescBool b c → scoreDescBool a c := by
    intro a b c hab hbc
    simp only [scoreDescBool, decide_eq_true_eq] at *
    exact le_trans hbc hab
  have htotal : ∀ a b : LyricsResult, scoreDescBool a b || scoreDescBool b a := by
    intro a b
    simp only [scoreDescBool, Bool.or_eq_true, decide_eq_true_eq]
    exact le_total _ _
  refine ⟨?_, removeDuplicatesAux_sublist results [], (removeDuplicatesAux_nodup results []).1,
    ?_, fun r hr => (removeDuplicatesAux_first_occ results [] r hr).2, ?_⟩
  · exact (List.sorted_mergeSort htrans htotal (remove_duplicates results)).imp
      (fun hab => of_decide_eq_true hab)
  · intro r hr
    rcases removeDuplicatesAux_covers results [] r hr with hseen | hex
    · exact absurd hseen (List.not_mem_nil _)
    · exact hex
  · intro c1 c2 h
    simp [searchThreadResults, remove_duplicates, removeDuplicatesAux, ← h]

/-- Witness for C5: two candidates whose keys agree after lower-casing and
trimming; only the first (higher-scored, first-in-input) survives. -/
theorem C5_witness :
    searchThreadResults
      [{ title := "T", artist := "A", accuracy_score := 1 },
       { title := "t ", artist := " a", accuracy_score := 0 }]
      = [{ title := "T", artist := "A", accuracy_score := 1 }] :=
  (C5_deduplication
      [{ title := "T", artist := "A", accuracy_score := 1 },
       { title := "t ", artist := " a", accuracy_score := 0 }]).2.2.2.2.2
    { title := "T", artist := "A", accuracy_score := 1 }
    { title := "t ", artist := " a", accuracy_score := 0 }
    (by decide)

/-! ### Claim C6: the auto-download batch -/

theorem progressEvents_succ (c total n : ℕ) :
    progressEvents c total (n + 1) = (true, c + 1, total) :: progressEvents (c + 1) total n := by
  unfold progressEvents
  rw [List.range_succ_eq_map, List.map_cons, List.map_map]
  congr 1
  refine List.map_congr_left ?_
  intro i _
  simp only [Function.comp]
  have : c + (i + 1) + 1 = c + 1 + i + 1 := by omega
  rw [this]

theorem processQueue_spec (search : Track → List LyricsResult) (dl : Track → Bool)
    (queue : List Track) : ∀ st : ADState,
    (processQueue search dl queue st).total = st.total ∧
    (processQueue search dl queue st).completed = st.completed + queue.length ∧
    (processQueue search dl queue st).downloads =
      st.downloads ++ queue.filterMap (fun t => ((search t).head?).map (fun b => (t, b))) ∧
    (processQueue search dl queue st).events =
      st.events ++ (progressEvents st.completed st.total queue.length ++
        [(false, st.completed + queue.length, st.total)]) := by
  induction queue with
  | nil =>
    intro st
    simp [processQueue, progressEvents]
  | cons t rest ih =>
    intro st
    have harith : st.completed + (rest.length + 1) = st.completed + 1 + rest.length := by omega
    cases hsearch : search t with
    | nil =>
      simp only [processQueue, hsearch]
      obtain ⟨h1, h2, h3, h4⟩ := ih
        { st with completed := st.completed + 1,
                  events := st.events ++ [(true, st.completed + 1, st.total)] }
      refine ⟨by rw [h1], by rw [h2]; simp; omega, ?_, ?_⟩
      · rw [h3]
        simp [hsearch]
      · rw [h4]
        simp only [List.length_cons, progressEvents_succ, harith]
        simp [List.append_assoc]
    | cons best others =>
      cases hdl : dl t with
      | true =>
        simp only [processQueue, hsearch]
        rw [if_pos hdl]
        obtain ⟨h1, h2, h3, h4⟩ := ih
          { st with completed := st.completed + 1,
                    events := st.events ++ [(true, st.completed + 1, st.total)],
                    downloads := st.downloads ++ [(t, best)],
                    succeeded := st.succeeded ++ [t.path] }
        refine ⟨by rw [h1], by rw [h2]; simp; omega, ?_, ?_⟩
        · rw [h3]
          simp [hsearch]
        · rw [h4]
          simp only [List.length_cons, progressEvents_succ, harith]
          simp [List.append_assoc]
      | false =>
        simp only [processQueue, hsearch]
        rw [if_neg (by simp [hdl])]
        obtain ⟨h1, h2, h3, h4⟩ := ih
          { st with completed := st.completed + 1,
                    events := st.events ++ [(true, st.completed + 1, st.total)],
                    downloads := st.downloads ++ [(t, best)] }
        refine ⟨by rw [h1], by rw [h2]; simp; omega, ?_, ?_⟩
        · rw [h3]
          simp [hsearch]
        · rw [h4]
          simp only [List.length_cons, progressEvents_succ, harith]
          simp [List.append_assoc]

/-- Claim C6: starting the auto-download batch on a (nonempty) track list sets
`total` to the list length, processes the tracks one at a time, and ends with
`completed` equal to the list length; exactly the tracks with nonempty search
results receive exactly one download attempt each, of the top-ranked (first)
candidate — a failing download still counts and does not halt the queue (the
outcome holds for every `dl` oracle) — and a progress event fires after every
track (`(True, i+1, total)` for the i-th processed track), bracketed by the
initial and final state events. -/
theorem C6_auto_download (search : Track → List LyricsResult) (dl : Track → Bool)
    (tracks : List Track) (hne : tracks ≠ []) :
    (startAutoDownload search dl tracks).total = tracks.length ∧
    (startAutoDownload search dl tracks).completed = tracks.length ∧
    (startAutoDownload search dl tracks).downloads =
      tracks.filterMap (fun t => ((search t).head?).map (fun b => (t, b))) ∧
    (startAutoDownload search dl tracks).events =
      (true, 0, tracks.length) ::
        (progressEvents 0 tracks.length tracks.length ++
          [(false, tracks.length, tracks.length)]) := by
  have hf : tracks.isEmpty = false := by
    cases tracks with
    | nil => exact absurd rfl hne
    | cons a l => rfl
  unfold startAutoDownload
  rw [hf]
  simp only [Bool.false_eq_true, if_false]
  obtain ⟨h1, h2, h3, h4⟩ := processQueue_spec search dl tracks
    ⟨0, tracks.length, [(true, 0, tracks.length)], [], []⟩
  refine ⟨by rw [h1], by rw [h2]; simp, by rw [h3]; simp, ?_⟩
  rw [h4]
  simp

/-- Witness for C6: three tracks, track "2" yields no results, every download
errors; completed reaches 3 and exactly 2 download attempts are made. -/
theorem C6_witness :
    (startAutoDownload
        (fun t => if t.path == "2" then [] else [{ title := "x" }])
        (fun _ => false)
        [⟨"1", "", "", "", 0⟩, ⟨"2", "", "", "", 0⟩, ⟨"3", "", "", "", 0⟩]).completed = 3 ∧
    (startAutoDownload
        (fun t => if t.path == "2" then [] else [{ title := "x" }])
        (fun _ => false)
        [⟨"1", "", "", "", 0⟩, ⟨"2", "", "", "", 0⟩, ⟨"3", "", "", "", 0⟩]).downloads.length
      = 2 := by
  have h := C6_auto_download
    (fun t => if t.path == "2" then [] else [{ title := "x" }])
    (fun _ => false)
    [⟨"1", "", "", "", 0⟩, ⟨"2", "", "", "", 0⟩, ⟨"3", "", "", "", 0⟩]
    (by decide)
  exact ⟨h.2.1, by rw [h.2.2.1]; decide⟩

/-! ### Claim C7: the sliding-window rate limiter -/

theorem evict_evict {W t1 t2 : ℚ} (h : t1 ≤ t2) (l : List ℚ) :
    evict W t2 (evict W t1 l) = evict W t2 l := by
  unfold evict
  rw [List.filter_filter]
  apply List.filter_congr
  intro a _
  by_cases hh : t2 - a < W
  · have h2 : t1 - a < W := by linarith
    simp [hh, h2]
  · simp [hh]

theorem evict_append_self {W now : ℚ} (hW : 0 < W) (l : List ℚ) :
    evict W now (l ++ [now]) = evict W now l ++ [now] := by
  unfold evict
  rw [List.filter_append]
  congr 1
  simp [hW]

theorem foldlMin_mem (xs : List ℚ) : ∀ x : ℚ, xs.foldl min x ∈ x :: xs := by
  induction xs with
  | nil => intro x; simp
  | cons y ys ih =>
    intro x
    rw [List.foldl_cons]
    have h := ih (min x y)
    rcases List.mem_cons.mp h with h1 | h1
    · rcases min_choice x y with hm | hm
      · rw [h1, hm]; exact List.mem_cons_self _ _
      · rw [h1, hm]; exact List.mem_cons_of_mem _ (List.mem_cons_self _ _)
    · exact List.mem_cons_of_mem _ (List.mem_cons_of_mem _ h1)

theorem listMin_mem {l : List ℚ} (h : l ≠ []) : listMin l ∈ l := by
  cases l with
  | nil => exact absurd rfl h
  | cons x xs => exact foldlMin_mem xs x

theorem length_filter_lt {α : Type} {p : α → Bool} {l : List α} {a : α}
    (ha : a ∈ l) (hpa : p a = false) : (l.filter p).length < l.length := by
  induction l with
  | nil => exact absurd ha (List.not_mem_nil a)
  | cons x xs ih =>
    rcases List.mem_cons.mp ha with rfl | ha'
    · rw [List.filter_cons_of_neg (by simp [hpa])]
      exact Nat.lt_succ_of_le (List.length_filter_le p xs)
    · by_cases hx : p x = true
      · rw [List.filter_cons_of_pos hx]
        simpa using Nat.succ_lt_succ (ih ha')
      · rw [List.filter_cons_of_neg (by simpa using hx)]
        exact lt_trans (ih ha') (Nat.lt_succ_self _)

theorem grants_append_window (N : ℕ) (W : ℚ) (grants : List ℚ) (g : ℚ)
    (hOld : ∀ s : ℚ, (grants.filter (inWin W s)).length ≤ N)
    (hPre : (evict W g grants).length < N) :
    ∀ s : ℚ, ((grants ++ [g]).filter (inWin W s)).length ≤ N := by
  intro s
  rw [List.filter_append, List.length_append]
  by_cases hsin : inWin W s g = true
  · have hsw : s < g ∧ g ≤ s + W := of_decide_eq_true (by unfold inWin at hsin; exact hsin)
    have himp : ∀ x : ℚ, inWin W s x = true → (decide (g - x < W)) = true := by
      intro x hx
      unfold inWin at hx
      have hx' := of_decide_eq_true hx
      exact decide_eq_true (by linarith [hsw.2, hx'.1])
    have hsub := List.monotone_filter_right grants himp
    have h2 : (grants.filter (inWin W s)).length ≤
        (grants.filter (fun t => decide (g - t < W))).length := hsub.length_le
    have h3 : (grants.filter (fun t => decide (g - t < W))).length < N := hPre
    have h4 : ([g].filter (inWin W s)).length ≤ 1 :=
      le_trans (List.length_filter_le _ _) (by simp)
    omega
  · rw [List.filter_cons_of_neg hsin]
    simpa using hOld s

theorem rlStep_inv (N : ℕ) (W : ℚ) (hN : 1 ≤ N) (hW : 0 < W)
    {st : RL} (hInv : RLInv N W st) {delay : ℚ} (hd : 0 ≤ delay) :
    RLInv N W (rlStep N W st delay) := by
  obtain ⟨hle, hreqs, hlen, hwin⟩ := hInv
  unfold rlStep
  have htnow_le : st.tnow ≤ st.tnow + delay := by linarith
  have hreqs1 : evict W (st.tnow + delay) st.reqs = evict W (st.tnow + delay) st.grants := by
    rw [hreqs, evict_evict htnow_le]
  have hlen1 : (evict W (st.tnow + delay) st.reqs).length ≤ N :=
    le_trans (List.length_filter_le _ _) hlen
  by_cases hcase : N ≤ (evict W (st.tnow + delay) st.reqs).length
  · rw [if_pos hcase]
    have hne : evict W (st.tnow + delay) st.reqs ≠ [] := by
      intro h0
      rw [h0] at hcase
      simp at hcase
      omega
    have hmem : listMin (evict W (st.tnow + delay) st.reqs) ∈
        evict W (st.tnow + delay) st.reqs := listMin_mem hne
    have holdiff : st.tnow + delay - listMin (evict W (st.tnow + delay) st.reqs) < W := by
      unfold evict at hmem
      exact of_decide_eq_true (List.mem_filter.mp hmem).2
    have hwait : 0 < W - (st.tnow + delay - listMin (evict W (st.tnow + delay) st.reqs)) := by
      linarith
    rw [if_pos hwait]
    dsimp only
    set oldest := listMin (evict W (st.tnow + delay) st.reqs) with holdest
    set now2 := st.tnow + delay + (W - (st.tnow + delay - oldest)) with hn2
    have hnow2 : now2 = oldest + W := by rw [hn2]; ring
    have hle2 : st.tnow + delay ≤ now2 := by
      rw [hn2]; linarith
    have hfail : (decide (now2 - oldest < W)) = false := by
      apply decide_eq_false
      rw [hnow2]
      intro hcontra
      have : oldest + W - oldest = W := by ring
      rw [this] at hcontra
      exact lt_irrefl _ hcontra
    have hdec : (evict W now2 (evict W (st.tnow + delay) st.reqs)).length <
        (evict W (st.tnow + delay) st.reqs).length := by
      unfold evict
      exact length_filter_lt hmem hfail
    have hreqs2 : evict W now2 (evict W (st.tnow + delay) st.reqs) = evict W now2 st.grants := by
      rw [hreqs1, evict_evict hle2]
    have hlen2 : (evict W now2 (evict W (st.tnow + delay) st.reqs)).length < N :=
      lt_of_lt_of_le hdec hlen1
    refine ⟨?_, ?_, ?_, ?_⟩
    · intro t ht
      rcases List.mem_append.mp ht with h | h
      · exact le_trans (hle t h) (le_trans htnow_le hle2)
      · rw [List.mem_singleton] at h
        rw [h]
    · rw [evict_append_self hW, hreqs2]
    · rw [List.length_append]
      simp
      omega
    · apply grants_append_window N W st.grants now2 hwin
      rw [← hreqs2]
      exact hlen2
  · rw [if_neg hcase]
    push_neg at hcase
    refine ⟨?_, ?_, ?_, ?_⟩
    · intro t ht
      rcases List.mem_append.mp ht with h | h
      · exact le_trans (hle t h) htnow_le
      · rw [List.mem_singleton] at h
        rw [h]
    · rw [evict_append_self hW, hreqs1]
    · rw [List.length_append]
      simp
      omega
    · apply grants_append_window N W st.grants (st.tnow + delay) hwin
      rw [← hreqs1]
      exact hcase

theorem rlRun_inv (N : ℕ) (W : ℚ) (hN : 1 ≤ N) (hW : 0 < W)
    (delays : List ℚ) (hd : ∀ d ∈ delays, 0 ≤ d) :
    RLInv N W (rlRun N W delays) := by
  rw [rlRun]
  have hgen : ∀ (ds : List ℚ), (∀ d ∈ ds, 0 ≤ d) → ∀ st : RL, RLInv N W st →
      RLInv N W (ds.foldl (rlStep N W) st) := by
    intro ds
    induction ds with
    | nil => intro _ st h; exact h
    | cons d rest ih =>
      intro hdd st h
      rw [List.foldl_cons]
      exact ih (fun x hx => hdd x (List.mem_cons_of_mem _ hx)) _
        (rlStep_inv N W hN hW h (hdd d (List.mem_cons_self _ _)))
  refine hgen delays hd _ ⟨by simp, by simp [evict], by simp, by intro s; simp⟩

theorem filter_keep_replicate (W now : ℚ) (k : ℕ) (h : now - 0 < W) :
    evict W now (List.replicate k (0:ℚ)) = List.replicate k 0 := by
  unfold evict
  apply List.filter_eq_self.mpr
  intro a ha
  have := List.eq_of_mem_replicate ha
  subst this
  exact decide_eq_true h

theorem rlStep_fill (k : ℕ) (hk : k < 10) :
    rlStep 10 60 ⟨List.replicate k 0, List.replicate k 0, 0⟩ 0 =
      ⟨List.replicate (k + 1) 0, List.replicate (k + 1) 0, 0⟩ := by
  unfold rlStep
  dsimp only
  rw [show (0:ℚ) + 0 = 0 from by norm_num]
  rw [filter_keep_replicate 60 0 k (by norm_num)]
  rw [if_neg (by simp; omega)]
  rw [List.replicate_succ']

theorem rlRun_fill (k : ℕ) (hk : k ≤ 10) :
    rlRun 10 60 (List.replicate k 0) = ⟨List.replicate k 0, List.replicate k 0, 0⟩ := by
  induction k with
  | zero => rfl
  | succ n ih =>
    have hn : n ≤ 10 := by omega
    unfold rlRun at ih ⊢
    rw [List.replicate_succ', List.foldl_append, ih hn, List.foldl_cons, List.foldl_nil,
      ← List.replicate_succ']
    exact rlStep_fill n (by omega)

theorem rlRun_eleventh :
    (rlRun 10 60 (List.replicate 11 0)).grants = List.replicate 10 0 ++ [60] ∧
    (rlRun 10 60 (List.replicate 11 0)).tnow = 60 := by
  have h10 := rlRun_fill 10 (le_refl 10)
  have hstep : rlRun 10 60 (List.replicate 11 0) =
      rlStep 10 60 ⟨List.replicate 10 0, List.replicate 10 0, 0⟩ 0 := by
    unfold rlRun at h10 ⊢
    rw [show (11:ℕ) = 10 + 1 from rfl, List.replicate_succ', List.foldl_append, h10,
      List.foldl_cons, List.foldl_nil]
  rw [hstep]
  unfold rlStep
  dsimp only
  rw [show (0:ℚ) + 0 = 0 from by norm_num]
  rw [filter_keep_replicate 60 0 10 (by norm_num)]
  rw [if_pos (by simp)]
  have hmin : listMin (List.replicate 10 (0:ℚ)) = 0 :=
    List.eq_of_mem_replicate (listMin_mem (by simp))
  rw [hmin]
  rw [if_pos (by norm_num)]
  dsimp only
  rw [show (0:ℚ) + (60 - (0 - 0)) = 60 from by norm_num]
  constructor
  · rfl
  · rfl

/-- Claim C7: for every serialised sequence of `wait_if_needed` calls (with
nonnegative inter-arrival delays), no rolling window `(s, s+W]` ever contains
more than `N` grants; and concretely, with `N = 10, W = 60`, eleven immediate
acquisitions grant the first ten at time 0 and block the eleventh exactly
until the first recorded timestamp is 60 seconds old (it is granted at time
60).  The evict–check–sleep–re-evict–record structure is the definition of
`rlStep`, transcribed from `wait_if_needed`. -/
theorem C7_rate_limiter (N : ℕ) (W : ℚ) (hN : 1 ≤ N) (hW : 0 < W)
    (delays : List ℚ) (hd : ∀ d ∈ delays, 0 ≤ d) :
    (∀ s : ℚ, ((rlRun N W delays).grants.filter (inWin W s)).length ≤ N) ∧
    (rlRun 10 60 (List.replicate 11 0)).grants = List.replicate 10 0 ++ [60] ∧
    (rlRun 10 60 (List.replicate 11 0)).tnow = 60 :=
  ⟨(rlRun_inv N W hN hW delays hd).2.2.2, rlRun_eleventh.1, rlRun_eleventh.2⟩

/-- Witness for C7 with `N = 1, W = 1` and two immediate calls. -/
theorem C7_witness :
    (∀ s : ℚ, ((rlRun 1 1 [0, 0]).grants.filter (inWin 1 s)).length ≤ 1) ∧
    (rlRun 10 60 (List.replicate 11 0)).grants = List.replicate 10 0 ++ [60] ∧
    (rlRun 10 60 (List.replicate 11 0)).tnow = 60 :=
  C7_rate_limiter 1 1 (le_refl 1) (by norm_num) [0, 0] (by norm_num)
